import Mathlib

/-!
Verification development for the AI-RAG-app repository
(`streamlit_app/document_processor.py` and `streamlit_app/rag_service.py`).

Python strings are modelled as lists of characters (`PyStr`), so that Python
string operations (`strip`, `split('.')`, `'.'.join`, slicing with possibly
negative indices, `lower`) can be given faithful executable definitions.
The external tokenizer (`tiktoken`, cl100k_base) is modelled as an abstract
`Encoding` (a pair of total functions `encode`/`decode`); theorems that need
tokenizer facts take them as explicit hypotheses, and `charEncoding` (one
token per character) is a concrete instance used for witnesses and
counterexamples.  Python `while` loops are modelled with explicit fuel:
`none` means the fuel was exhausted before the loop exited.
-/

/-- Model of a Python `str`: a list of Unicode code points. -/
abbrev PyStr := List Char

/-- Model of Python `str.strip()`: drop whitespace from both ends.
(Python's notion of whitespace is slightly wider than `Char.isWhitespace`;
the difference does not matter for any claim below.) -/
def pyStrip (s : PyStr) : PyStr :=
  ((s.dropWhile Char.isWhitespace).reverse.dropWhile Char.isWhitespace).reverse

/-- Model of Python `str.split('.')`: split on every occurrence of `'.'`,
keeping empty fragments, and returning `[""]` on the empty string. -/
def pySplitDot : PyStr → List PyStr
  | [] => [[]]
  | c :: rest =>
    if c = '.' then [] :: pySplitDot rest
    else
      match pySplitDot rest with
      | [] => [[c]]
      | h :: t => (c :: h) :: t

/-- Model of Python `'.'.join(parts)`. -/
def pyJoinDot (parts : List PyStr) : PyStr :=
  List.intercalate ['.'] parts

/-- Model of Python `str.lower()` (code-point-wise lowercasing). -/
def pyLower (s : PyStr) : PyStr :=
  s.map Char.toLower

/-- Model of Python slicing `l[i:j]` with step 1: negative indices count from
the end, and both indices are clamped into `[0, len(l)]`. -/
def pySlice {α : Type} (l : List α) (i j : Int) : List α :=
  let n : Int := l.length
  let i' : Nat := (if i < 0 then max (n + i) 0 else min i n).toNat
  let j' : Nat := (if j < 0 then max (n + j) 0 else min j n).toNat
  (l.take j').drop i'

/-- Abstract model of the external tokenizer (`tiktoken.get_encoding("cl100k_base")`
in `DocumentProcessor.__init__`): a total pair of functions from text to token
lists and back.  Properties such as `decode (encode s) = s` are taken as
hypotheses where a theorem needs them. -/
structure Encoding where
  encode : PyStr → List Nat
  decode : List Nat → PyStr

/-- A concrete `Encoding` instance: one token per character.  It satisfies
decode-of-encode round-trip and decodes token concatenations to text
concatenations, like the real byte-level BPE tokenizer. -/
def charEncoding : Encoding where
  encode s := s.map Char.toNat
  decode ts := ts.map Char.ofNat

/-- `DocumentProcessor._split_text_into_chunks`, lines 122-137: the end-token
position used for the current window.  `end0 = start + chunk_size` is the
tentative end; for a non-final window (`end0 < len(tokens)`) the decoded
window is split on `'.'`, and if more than one fragment results the window is
truncated to all fragments but the last (re-joined with `'.'` and terminated
by `'.'`) and re-encoded, the new end being `start` plus the re-encoded
length. -/
def computeEnd (enc : Encoding) (chunkSize : Int) (tokens : List Nat) (start : Int) : Int :=
  let end0 : Int := start + chunkSize
  if end0 < (tokens.length : Int) then
    let chunkText := enc.decode (pySlice tokens start end0)
    let sentences := pySplitDot chunkText
    if 1 < sentences.length then
      start + ((enc.encode (pyJoinDot sentences.dropLast ++ ['.'])).length : Int)
    else end0
  else end0

/-- Modelled from the spec: the sentence-snapping rule of §4.2 in the spec's
own terms — "decode the tentative token window to text, split on `.`, and if
more than one sentence fragment exists, truncate the chunk to all complete
sentences ... and re-encode to determine the true end-token position.  If no
`.` is found, the original fixed-size window is kept."  Stated with the
spec's "window contains a `.`" test, to be compared with `computeEnd`. -/
def specSnapEnd (enc : Encoding) (chunkSize : Int) (tokens : List Nat) (start : Int) : Int :=
  let window := enc.decode (pySlice tokens start (start + chunkSize))
  if '.' ∈ window then
    start + ((enc.encode (pyJoinDot (pySplitDot window).dropLast ++ ['.'])).length : Int)
  else start + chunkSize

/-- The `while start < len(tokens)` loop of
`DocumentProcessor._split_text_into_chunks` (lines 121-151), with explicit
fuel.  Each iteration computes the window end via `computeEnd`, appends the
stripped decoded window when it is non-empty, and sets
`start = end - chunk_overlap`, forcing `start = end` when that value is not
below `end` (the code's `if start >= end: start = end` guard). -/
def splitLoop (enc : Encoding) (chunkSize chunkOverlap : Int) (tokens : List Nat) :
    Nat → Int → List PyStr → Option (List PyStr)
  | 0, _, _ => none
  | fuel + 1, start, chunks =>
    if start < (tokens.length : Int) then
      let endPos := computeEnd enc chunkSize tokens start
      let chunkText := enc.decode (pySlice tokens start endPos)
      let chunks' := if pyStrip chunkText ≠ [] then chunks ++ [pyStrip chunkText] else chunks
      let start' := endPos - chunkOverlap
      let start'' := if start' ≥ endPos then endPos else start'
      splitLoop enc chunkSize chunkOverlap tokens fuel start'' chunks'
    else some chunks

/-- `DocumentProcessor._split_text_into_chunks` (token path): encode the text
and run the chunking loop from `start = 0` with an empty accumulator.
(The `except` fallback to `_simple_text_split` fires only when the external
tokenizer raises; the abstract `Encoding` here is total, and the fallback is
modelled separately by `simpleTextSplit`.) -/
def splitTextIntoChunks (enc : Encoding) (chunkSize chunkOverlap : Int) (text : PyStr)
    (fuel : Nat) : Option (List PyStr) :=
  splitLoop enc chunkSize chunkOverlap (enc.encode text) fuel 0 []

/-- The `while start < len(text)` loop of
`DocumentProcessor._simple_text_split` (lines 168-179), with explicit fuel:
fixed-size character windows, stripped and appended when non-empty, with the
same overlap and `if start >= end: start = end` rules as the token loop. -/
def simpleLoop (charChunkSize charOverlap : Int) (text : PyStr) :
    Nat → Int → List PyStr → Option (List PyStr)
  | 0, _, _ => none
  | fuel + 1, start, chunks =>
    if start < (text.length : Int) then
      let endPos := start + charChunkSize
      let chunk := pySlice text start endPos
      let chunks' := if pyStrip chunk ≠ [] then chunks ++ [pyStrip chunk] else chunks
      let start' := endPos - charOverlap
      let start'' := if start' ≥ endPos then endPos else start'
      simpleLoop charChunkSize charOverlap text fuel start'' chunks'
    else some chunks

/-- `DocumentProcessor._simple_text_split`: character-based fallback with
`char_chunk_size = chunk_size * 4` and `char_overlap = chunk_overlap * 4`. -/
def simpleTextSplit (chunkSize chunkOverlap : Int) (text : PyStr) (fuel : Nat) :
    Option (List PyStr) :=
  simpleLoop (chunkSize * 4) (chunkOverlap * 4) text fuel 0 []

/-- Error outcomes of `DocumentProcessor.process_uploaded_file`:
`ValueError("Unsupported file extension: ...")` from `_get_file_type`,
`ValueError("No text content found in the file")`, and extraction failures
wrapped by `_extract_pdf_text` / `_extract_docx_text`. -/
inductive ProcErr : Type
  | unsupportedFormat (ext : PyStr)
  | emptyDocument
  | extractionFailed (msg : PyStr)
deriving DecidableEq, Repr

/-- `DocumentProcessor._get_file_type`: the extension is the last
`'.'`-separated fragment of the lowercased filename; `pdf`, `docx`/`doc`
(mapped to `docx`) and `txt` are accepted, anything else raises. -/
def getFileType (filename : PyStr) : Except ProcErr PyStr :=
  let extension := (pySplitDot (pyLower filename)).getLastD []
  if extension = ('p' :: 'd' :: 'f' :: []) then Except.ok extension
  else if extension = ('d' :: 'o' :: 'c' :: 'x' :: []) ∨ extension = ('d' :: 'o' :: 'c' :: []) then
    Except.ok ('d' :: 'o' :: 'c' :: 'x' :: [])
  else if extension = ('t' :: 'x' :: 't' :: []) then Except.ok extension
  else Except.error (ProcErr.unsupportedFormat extension)

/-- The chunk record built by `DocumentProcessor.process_uploaded_file`
(lines 43-51): content plus metadata (`filename`, `file_type`, `chunk_index`,
`total_chunks`). -/
structure Doc where
  content : PyStr
  filename : PyStr
  fileType : PyStr
  chunkIndex : Nat
  totalChunks : Nat
deriving DecidableEq, Repr

/-- `DocumentProcessor.process_uploaded_file`: determine the file type from
the filename, extract text (`txt` decodes the bytes directly; `pdf`/`docx`
call the corresponding extractor, here passed in as a function since the
extraction libraries are external), fail on whitespace-only text, chunk, and
attach metadata.  `none` means the chunking loop ran out of fuel. -/
def processUploadedFile (enc : Encoding) (chunkSize chunkOverlap : Int)
    (extractPdfText extractDocxText : PyStr → Except ProcErr PyStr)
    (filename content : PyStr) (fuel : Nat) : Option (Except ProcErr (List Doc)) :=
  match getFileType filename with
  | Except.error e => some (Except.error e)
  | Except.ok fileType =>
    let textE : Except ProcErr PyStr :=
      if fileType = ('p' :: 'd' :: 'f' :: []) then extractPdfText content
      else if fileType = ('d' :: 'o' :: 'c' :: 'x' :: []) then extractDocxText content
      else Except.ok content
    match textE with
    | Except.error e => some (Except.error e)
    | Except.ok text =>
      if pyStrip text = [] then some (Except.error ProcErr.emptyDocument)
      else
        match splitTextIntoChunks enc chunkSize chunkOverlap text fuel with
        | none => none
        | some chunks =>
          some (Except.ok (chunks.mapIdx fun i c =>
            { content := c, filename := filename, fileType := fileType,
              chunkIndex := i, totalChunks := chunks.length }))

/-- Metadata as an association list of key/value pairs, modelling the Python
dict handed to `RAGService._generate_doc_id` and stored with each chunk.
A Python dict has pairwise-distinct keys; nothing below needs that fact. -/
abbrev Metadata := List (String × String)

/-- Total order on metadata pairs: by key, ties broken by value.  On the
distinct-key lists coming from Python dicts this sorts exactly as
`json.dumps(metadata, sort_keys=True)` orders the keys. -/
def pairLE (a b : String × String) : Prop :=
  a.1 < b.1 ∨ (a.1 = b.1 ∧ a.2 ≤ b.2)

instance : DecidableRel pairLE := fun a b =>
  inferInstanceAs (Decidable (a.1 < b.1 ∨ (a.1 = b.1 ∧ a.2 ≤ b.2)))

instance : IsTotal (String × String) pairLE where
  total a b := by
    rcases lt_trichotomy a.1 b.1 with h | h | h
    · exact Or.inl (Or.inl h)
    · rcases le_total a.2 b.2 with h2 | h2
      · exact Or.inl (Or.inr ⟨h, h2⟩)
      · exact Or.inr (Or.inr ⟨h.symm, h2⟩)
    · exact Or.inr (Or.inl h)

instance : IsTrans (String × String) pairLE where
  trans a b c hab hbc := by
    rcases hab with h1 | ⟨h1, h1v⟩
    · rcases hbc with h2 | ⟨h2, _⟩
      · exact Or.inl (lt_trans h1 h2)
      · exact Or.inl (h2 ▸ h1)
    · rcases hbc with h2 | ⟨h2, h2v⟩
      · exact Or.inl (h1 ▸ h2)
      · exact Or.inr ⟨h1.trans h2, le_trans h1v h2v⟩

instance : IsAntisymm (String × String) pairLE where
  antisymm a b hab hba := by
    rcases hab with h1 | ⟨h1, h1v⟩
    · rcases hba with h2 | ⟨h2, _⟩
      · exact absurd (lt_trans h1 h2) (lt_irrefl a.1)
      · exact absurd h1 (h2 ▸ lt_irrefl b.1)
    · rcases hba with h2 | ⟨h2, h2v⟩
      · exact absurd h2 (h1 ▸ lt_irrefl a.1)
      · exact Prod.ext h1 (le_antisymm h1v h2v)

/-- Model of `json.dumps(metadata, sort_keys=True)` in
`RAGService._generate_doc_id`: a canonical serialization of the
key-sorted pair list (the exact JSON syntax is irrelevant; what matters is
that it is a function of the sorted list). -/
def serializeMetadata (m : Metadata) : String :=
  String.intercalate "," ((List.insertionSort pairLE m).map fun p => p.1 ++ ":" ++ p.2)

/-- `RAGService._generate_doc_id`: hash of the content, an underscore, then a
hash of the sorted-keys metadata serialization.  The hash (`hashlib.md5` in
the source) is external and passed in as a function. -/
def generateDocId (hash : String → String) (content : String) (metadata : Metadata) : String :=
  hash content ++ "_" ++ hash (serializeMetadata metadata)

/-- Modelled from the spec: the external vector store collection (Chroma), a
sequence of records keyed by id.  The store itself is not repository code;
§3 "Identity" and §4.4 of the spec give its contract. -/
abbrev Store := List (String × String × Metadata)

/-- The ids currently present in the store. -/
def storeIds (s : Store) : List String := s.map fun e => e.1

/-- Modelled from the spec: `collection.add` for a single record under the
spec's upsert contract — adding an id that is already present leaves the
store unchanged (§3: "reprocessing the same file ... is idempotent at the
storage layer (upsert semantics)"). -/
def collectionAdd (s : Store) (e : String × String × Metadata) : Store :=
  if e.1 ∈ storeIds s then s else s ++ [e]

/-- Modelled from the spec: `collection.count()`, the number of stored
records (used by `RAGService.get_collection_stats`). -/
def storeCount (s : Store) : Nat := s.length

/-- The dict shape `{'content': ..., 'metadata': ...}` consumed by
`RAGService.add_documents`. -/
structure InputDoc where
  content : String
  metadata : Metadata

/-- `RAGService.add_documents`: an empty batch returns `True` immediately
without touching the store; otherwise each document gets an id from
`_generate_doc_id` and the batch is added to the collection.  The returned
`Bool` is the function's success flag, the `Store` the resulting state. -/
def addDocuments (hash : String → String) (s : Store) (docs : List InputDoc) :
    Bool × Store :=
  match docs with
  | [] => (true, s)
  | _ :: _ =>
    (true, docs.foldl
      (fun st d => collectionAdd st (generateDocId hash d.content d.metadata, d.content, d.metadata)) s)

/-- The Search Result records built by `RAGService.search_documents`
(content, metadata, distance). -/
structure SearchResult where
  content : String
  metadata : Metadata
  distance : Int
deriving DecidableEq, Repr

/-- Comparison of raw query rows by their distance component. -/
def distLE (a b : String × Metadata × Int) : Prop := a.2.2 ≤ b.2.2

instance : DecidableRel distLE := fun a b => inferInstanceAs (Decidable (a.2.2 ≤ b.2.2))

instance : IsTotal (String × Metadata × Int) distLE where
  total a b := le_total a.2.2 b.2.2

instance : IsTrans (String × Metadata × Int) distLE where
  trans _ _ _ hab hbc := le_trans hab hbc

/-- Modelled from the spec: `collection.query(query_texts=[q], n_results=k)`
against the external store — all stored documents ranked by ascending
distance to the query (distance function external, passed in), truncated to
the first `k` (§4.4: "up to `k` ranked Search Results ordered by ascending
distance"). -/
def collectionQuery (dist : String → String → Int) (s : Store) (queryText : String)
    (nResults : Nat) : List (String × Metadata × Int) :=
  (List.insertionSort distLE (s.map fun e => (e.2.1, e.2.2, dist queryText e.2.1))).take nResults

/-- `RAGService.search_documents`: issue the store query and reshape each
parallel-array row into a result record. -/
def searchDocuments (dist : String → String → Int) (s : Store) (queryText : String)
    (nResults : Nat) : List SearchResult :=
  (collectionQuery dist s queryText nResults).map fun r =>
    { content := r.1, metadata := r.2.1, distance := r.2.2 }

/-- The prompt built by `RAGService.generate_response` (lines 165-175):
context block joined with blank lines, then the fixed instruction template. -/
def buildPrompt (query : String) (contextDocs : List SearchResult) : String :=
  let context := String.intercalate "\n\n" (contextDocs.map fun d => d.content)
  "Based on the following context, please answer the question. If the answer cannot be found in the context, please say so.\n\nContext:\n"
    ++ context ++ "\n\nQuestion: " ++ query ++ "\n\nAnswer:"

/-- `RAGService.generate_response`: call the external generation service
(passed in as a function of model name and prompt, returning either a
response or a failure message) and return its response; on failure return
the string `"Error generating response: "` followed by the message. -/
def generateResponse (gen : String → String → Except String String)
    (query : String) (contextDocs : List SearchResult) (model : String) : String :=
  match gen model (buildPrompt query contextDocs) with
  | Except.ok r => r
  | Except.error e => "Error generating response: " ++ e

/-! ### Helper lemmas about the Python string primitives -/

/-- The reverse of a suffix is a prefix of the reverse. -/
theorem reverse_isPre_of_isSuf {α : Type} {s t : List α} (h : s <:+ t) :
    s.reverse <+: t.reverse := by
  obtain ⟨u, rfl⟩ := h
  exact ⟨u.reverse, by simp⟩

/-- `dropWhile p` chops a suffix-preserving amount from the front. -/
theorem dropWhile_isSuf {α : Type} (p : α → Bool) (l : List α) :
    l.dropWhile p <:+ l := by
  induction l with
  | nil => exact ⟨[], rfl⟩
  | cons a t ih =>
    by_cases h : p a
    · simp only [List.dropWhile_cons, h, if_true]
      obtain ⟨u, hu⟩ := ih
      exact ⟨a :: u, by simp [hu]⟩
    · rw [List.dropWhile_cons, if_neg (by simp [h])]

/-- A list on which `dropWhile p` is the identity stays fixed on prefixes. -/
theorem dropWhile_eq_self_of_isPre {α : Type} {p : α → Bool} {x y : List α}
    (hx : x.dropWhile p = x) (hxy : y <+: x) : y.dropWhile p = y := by
  match y, hxy with
  | [], _ => rfl
  | a :: t, ⟨u, hu⟩ =>
    have hpa : p a = false := by
      cases hp : p a with
      | false => rfl
      | true =>
        exfalso
        have hxc : x = a :: (t ++ u) := by rw [← hu]; rfl
        have hlen : (x.dropWhile p).length = x.length := by rw [hx]
        rw [hxc] at hlen
        rw [List.dropWhile_cons, hp, if_pos rfl] at hlen
        have hle := (List.dropWhile_sublist (l := t ++ u) p).length_le
        simp only [List.length_cons] at hlen
        omega
    simp [List.dropWhile_cons, hpa]

/-- Python's `strip` is idempotent. -/
theorem pyStrip_idem (l : PyStr) : pyStrip (pyStrip l) = pyStrip l := by
  unfold pyStrip
  have hArev : ((l.dropWhile Char.isWhitespace).reverse.dropWhile Char.isWhitespace).reverse
      <+: l.dropWhile Char.isWhitespace := by
    have h1 := dropWhile_isSuf Char.isWhitespace (l.dropWhile Char.isWhitespace).reverse
    have h2 := reverse_isPre_of_isSuf h1
    rwa [List.reverse_reverse] at h2
  have hBfix := dropWhile_eq_self_of_isPre (List.dropWhile_idempotent Char.isWhitespace l) hArev
  rw [hBfix, List.reverse_reverse, List.dropWhile_idempotent]

/-- Python's `strip` returns the empty string exactly when every character of
the input is whitespace. -/
theorem pyStrip_eq_nil_iff (l : PyStr) :
    pyStrip l = [] ↔ ∀ c ∈ l, c.isWhitespace := by
  unfold pyStrip
  rw [List.reverse_eq_nil_iff, List.dropWhile_eq_nil_iff]
  constructor
  · intro h c hc
    rw [← List.takeWhile_append_dropWhile Char.isWhitespace l] at hc
    rcases List.mem_append.mp hc with h1 | h2
    · exact List.mem_takeWhile_imp h1
    · exact h c (List.mem_reverse.mpr h2)
  · intro h x hx
    exact h x ((List.dropWhile_sublist _).subset (List.mem_reverse.mp hx))

/-- `split('.')` never returns an empty fragment list. -/
theorem pySplitDot_ne_nil (l : PyStr) : pySplitDot l ≠ [] := by
  cases l with
  | nil => simp [pySplitDot]
  | cons c rest =>
    unfold pySplitDot
    by_cases h : c = '.'
    · simp [h]
    · rw [if_neg h]
      cases hr : pySplitDot rest <;> simp

/-- `split('.')` yields more than one fragment exactly when the string
contains a `'.'`. -/
theorem one_lt_pySplitDot_length_iff (l : PyStr) :
    1 < (pySplitDot l).length ↔ '.' ∈ l := by
  induction l with
  | nil => simp [pySplitDot]
  | cons c rest ih =>
    unfold pySplitDot
    by_cases h : c = '.'
    · subst h
      rw [if_pos rfl]
      constructor
      · intro _
        exact List.mem_cons_self _ _
      · intro _
        have := List.length_pos.mpr (pySplitDot_ne_nil rest)
        simp only [List.length_cons]
        omega
    · rw [if_neg h]
      rcases hr : pySplitDot rest with _ | ⟨hd, tl⟩
      · exact absurd hr (pySplitDot_ne_nil rest)
      · rw [hr] at ih
        simp only [List.length_cons, List.mem_cons] at ih ⊢
        constructor
        · intro hlen
          exact Or.inr (ih.mp hlen)
        · intro hmem
          rcases hmem with he | hm
          · exact absurd he.symm h
          · exact ih.mpr hm

/-- Slicing from `0` past the end of the list keeps the whole list. -/
theorem pySlice_all {α : Type} (l : List α) (j : Int) (hj : (l.length : Int) ≤ j) :
    pySlice l 0 j = l := by
  simp only [pySlice]
  rw [if_neg (show ¬ (0:Int) < 0 by omega), if_neg (show ¬ j < 0 by omega)]
  have h1 : (min (0:Int) (l.length : Int)).toNat = 0 := by omega
  have h2 : (min j (l.length : Int)).toNat = l.length := by omega
  rw [h1, h2, List.take_length, List.drop_zero]

/-- Dropping `s` elements splits as the dropped `[s:e]` block of the take
followed by the suffix from `e`. -/
theorem drop_eq_slice_append {α : Type} (l : List α) (s e : Nat) (hse : s ≤ e) :
    l.drop s = (l.take e).drop s ++ l.drop e := by
  rcases le_or_lt s ((l.take e).length) with h | h
  · conv_lhs => rw [← List.take_append_drop e l]
    rw [List.drop_append_of_le_length h]
  · rw [List.length_take] at h
    rw [List.drop_eq_nil_of_le (by omega),
        List.drop_eq_nil_of_le (by rw [List.length_take]; omega),
        List.drop_eq_nil_of_le (by omega)]
    rfl

/-- For `0 ≤ start ≤ e`, the suffix of the list from `start` decomposes as the
slice `[start:e]` followed by the suffix from `e`. -/
theorem pySlice_decomp {α : Type} (l : List α) (start e : Int)
    (h0 : 0 ≤ start) (hse : start ≤ e) :
    l.drop start.toNat = pySlice l start e ++ l.drop e.toNat := by
  simp only [pySlice]
  rw [if_neg (show ¬ start < 0 by omega), if_neg (show ¬ e < 0 by omega)]
  have hs : l.drop start.toNat = l.drop (min start (l.length : Int)).toNat := by
    rcases le_or_lt start.toNat l.length with h | h
    · congr 1
      omega
    · rw [List.drop_eq_nil_of_le (by omega), List.drop_eq_nil_of_le (by omega)]
  have he : l.drop e.toNat = l.drop (min e (l.length : Int)).toNat := by
    rcases le_or_lt e.toNat l.length with h | h
    · congr 1
      omega
    · rw [List.drop_eq_nil_of_le (by omega), List.drop_eq_nil_of_le (by omega)]
  rw [hs, he]
  exact drop_eq_slice_append l _ _ (by omega)

/-! ### Unfolding lemmas for the fueled loops -/

/-- One unfolding of `splitLoop` with positive fuel. -/
theorem splitLoop_succ (enc : Encoding) (S O : Int) (tokens : List Nat)
    (fuel : Nat) (start : Int) (acc : List PyStr) :
    splitLoop enc S O tokens (fuel + 1) start acc =
      if start < (tokens.length : Int) then
        splitLoop enc S O tokens fuel
          (if computeEnd enc S tokens start - O ≥ computeEnd enc S tokens start
            then computeEnd enc S tokens start else computeEnd enc S tokens start - O)
          (if pyStrip (enc.decode (pySlice tokens start (computeEnd enc S tokens start))) ≠ []
            then acc ++ [pyStrip (enc.decode (pySlice tokens start (computeEnd enc S tokens start)))]
            else acc)
      else some acc := rfl

/-- `splitLoop` with no fuel yields `none`. -/
theorem splitLoop_zero (enc : Encoding) (S O : Int) (tokens : List Nat)
    (start : Int) (acc : List PyStr) :
    splitLoop enc S O tokens 0 start acc = none := rfl

/-- One unfolding of `simpleLoop` with positive fuel. -/
theorem simpleLoop_succ (cs co : Int) (text : PyStr)
    (fuel : Nat) (start : Int) (acc : List PyStr) :
    simpleLoop cs co text (fuel + 1) start acc =
      if start < (text.length : Int) then
        simpleLoop cs co text fuel
          (if start + cs - co ≥ start + cs then start + cs else start + cs - co)
          (if pyStrip (pySlice text start (start + cs)) ≠ []
            then acc ++ [pyStrip (pySlice text start (start + cs))] else acc)
      else some acc := rfl

/-- `simpleLoop` with no fuel yields `none`. -/
theorem simpleLoop_zero (cs co : Int) (text : PyStr) (start : Int) (acc : List PyStr) :
    simpleLoop cs co text 0 start acc = none := rfl

/-- The character-level tokenizer model decodes its own encoding back to the
original text. -/
theorem charEncoding_roundTrip (s : PyStr) :
    charEncoding.decode (charEncoding.encode s) = s := by
  induction s with
  | nil => rfl
  | cons c t ih =>
    show Char.ofNat c.toNat :: charEncoding.decode (charEncoding.encode t) = c :: t
    rw [Char.ofNat_toNat, ih]

/-! ### Claim C9 -/

/-- Claim C9: `add_documents` called with an empty document list returns
`True` without performing any store call, leaving the store (and hence its
count) unchanged. -/
theorem claim9_addDocumentsEmptyIsNoop (hash : String → String) (s : Store) :
    addDocuments hash s [] = (true, s) := rfl

/-! ### Claim C10 -/

/-- Claim C10: `generate_response` never raises — whatever the external
generation call does, a `String` is returned; when the call fails with
message `e`, the returned string is exactly `"Error generating response: "`
followed by `e`, and when it succeeds the generated text is returned, so the
two cases are indistinguishable by return type. -/
theorem claim10_generateResponseTotal (gen : String → String → Except String String)
    (query : String) (contextDocs : List SearchResult) (model : String) :
    (∀ e, gen model (buildPrompt query contextDocs) = Except.error e →
      generateResponse gen query contextDocs model = "Error generating response: " ++ e) ∧
    (∀ r, gen model (buildPrompt query contextDocs) = Except.ok r →
      generateResponse gen query contextDocs model = r) := by
  constructor
  · intro e he
    unfold generateResponse
    rw [he]
  · intro r hr
    unfold generateResponse
    rw [hr]

/-- Witness for C10 at a concrete failing generation call. -/
theorem claim10_witness :
    generateResponse (fun _ _ => Except.error "connection refused") "q" [] "llama2"
      = "Error generating response: connection refused" :=
  (claim10_generateResponseTotal (fun _ _ => Except.error "connection refused")
    "q" [] "llama2").1 "connection refused" rfl

/-! ### Claim C4 -/

/-- Claim C4: processing a `txt` file whose decoded content is exactly
`"hello world"`, with `S = 1000` and `O = 200`, yields exactly one chunk
whose content is `"hello world"` (for any PDF/DOCX extractors, which are
not consulted). -/
theorem claim4_helloWorldRoundTrip
    (extractPdfText extractDocxText : PyStr → Except ProcErr PyStr) :
    processUploadedFile charEncoding 1000 200 extractPdfText extractDocxText
      "f.txt".toList "hello world".toList 2
      = some (Except.ok
          [⟨"hello world".toList, "f.txt".toList, "txt".toList, 0, 1⟩]) := rfl

/-! ### Claim C2 -/

/-- Claim C2 (code bug): the loop's "prevent infinite loop" guard compares
the new start against `end`, not against the previous start, so it fires only
when the overlap is `≤ 0`.  With the character tokenizer, `S = 5`, `O = 2`
and text `"a.bcdefgh"`, sentence-snapping shrinks the first window to the two
tokens of `"a."`, the next start is `2 - 2 = 0` again, and the loop never
terminates: for every amount of fuel and every accumulator the loop yields
`none`. -/
theorem claim2_progressGuardDoesNotTerminate :
    ∀ (fuel : Nat) (acc : List PyStr),
      splitLoop charEncoding 5 2 (charEncoding.encode "a.bcdefgh".toList) fuel 0 acc = none := by
  intro fuel
  induction fuel with
  | zero =>
    intro acc
    rfl
  | succ n ih =>
    intro acc
    have hstep : splitLoop charEncoding 5 2 (charEncoding.encode "a.bcdefgh".toList)
        (n + 1) 0 acc
        = splitLoop charEncoding 5 2 (charEncoding.encode "a.bcdefgh".toList)
            n 0 (acc ++ ["a.".toList]) := rfl
    rw [hstep]
    exact ih (acc ++ ["a.".toList])

/-! ### Counterexamples to C1 and C6 on whitespace-only input -/

/-- Counterexample to Claim C1 as stated: the input `" "` is a non-empty
string and `(S, O) = (5, 2)` satisfies `0 ≤ O < S`, yet the chunker
terminates with an empty chunk list (the whitespace-only window is dropped
by the `if chunk_text.strip()` test). -/
theorem claim1_counterexample :
    (' ' :: []) ≠ ([] : PyStr) ∧ (0 : Int) ≤ 2 ∧ (2 : Int) < 5 ∧
      splitTextIntoChunks charEncoding 5 2 (' ' :: []) 2 = some [] := by
  refine ⟨by decide, by decide, by decide, ?_⟩
  rfl

/-- Counterexample to Claim C6 as stated: the input `" "` is a non-empty
string and `(S, O) = (5, 2)` satisfies `0 ≤ O < S`, yet the character-based
fallback returns an empty chunk list rather than at least one non-empty
chunk. -/
theorem claim6_counterexample :
    (' ' :: []) ≠ ([] : PyStr) ∧ (0 : Int) ≤ 2 ∧ (2 : Int) < 5 ∧
      simpleTextSplit 5 2 (' ' :: []) 2 = some [] := by
  refine ⟨by decide, by decide, by decide, ?_⟩
  rfl

/-! ### Claim C8 -/

/-- Claim C8: for every uploaded file whose filename extension (last
`'.'`-fragment of the lowercased name) is none of `pdf`, `docx`, `doc`,
`txt`, processing fails with the unsupported-format error — and it does so
for arbitrary extractor functions and arbitrary file content, i.e. before
any extraction of the content is attempted. -/
theorem claim8_unsupportedFormatBeforeExtraction
    (enc : Encoding) (chunkSize chunkOverlap : Int)
    (extractPdfText extractDocxText : PyStr → Except ProcErr PyStr)
    (filename content : PyStr) (fuel : Nat)
    (h : (pySplitDot (pyLower filename)).getLastD [] ∉
      ([('p' :: 'd' :: 'f' :: []), ('d' :: 'o' :: 'c' :: 'x' :: []),
        ('d' :: 'o' :: 'c' :: []), ('t' :: 'x' :: 't' :: [])] : List PyStr)) :
    processUploadedFile enc chunkSize chunkOverlap extractPdfText extractDocxText
      filename content fuel
      = some (Except.error
          (ProcErr.unsupportedFormat ((pySplitDot (pyLower filename)).getLastD []))) := by
  simp only [List.mem_cons, List.not_mem_nil, or_false, not_or] at h
  obtain ⟨h1, h2, h3, h4⟩ := h
  have hft : getFileType filename
      = Except.error (ProcErr.unsupportedFormat ((pySplitDot (pyLower filename)).getLastD [])) := by
    simp only [getFileType]
    rw [if_neg h1, if_neg (not_or.mpr ⟨h2, h3⟩), if_neg h4]
  simp only [processUploadedFile]
  rw [hft]

/-- Witness for C8: a `.csv` upload is rejected with the unsupported-format
error, extractors unconsulted. -/
theorem claim8_witness :
    processUploadedFile charEncoding 1000 200 (fun _ => Except.ok ('x' :: []))
      (fun _ => Except.ok ('x' :: [])) "data.csv".toList "a,b".toList 2
      = some (Except.error (ProcErr.unsupportedFormat "csv".toList)) :=
  claim8_unsupportedFormatBeforeExtraction charEncoding 1000 200
    (fun _ => Except.ok ('x' :: [])) (fun _ => Except.ok ('x' :: []))
    "data.csv".toList "a,b".toList 2 (by decide)

/-! ### Loop invariants -/

/-- Every chunk the token loop ever appends is a stripped non-empty string,
so any result it returns extends an all-good accumulator with all-good
chunks. -/
theorem splitLoop_chunksNonempty (enc : Encoding) (S O : Int) (tokens : List Nat) :
    ∀ (fuel : Nat) (start : Int) (acc res : List PyStr),
      (∀ c ∈ acc, pyStrip c ≠ []) →
      splitLoop enc S O tokens fuel start acc = some res →
      ∀ c ∈ res, pyStrip c ≠ [] := by
  intro fuel
  induction fuel with
  | zero =>
    intro start acc res _ h
    rw [splitLoop_zero] at h
    exact absurd h (by simp)
  | succ n ih =>
    intro start acc res hacc h
    rw [splitLoop_succ] at h
    by_cases hs : start < (tokens.length : Int)
    · rw [if_pos hs] at h
      refine ih _ _ res ?_ h
      by_cases hne : pyStrip (enc.decode (pySlice tokens start (computeEnd enc S tokens start))) ≠ []
      · rw [if_pos hne]
        intro c hc
        rcases List.mem_append.mp hc with hl | hr
        · exact hacc c hl
        · rw [List.mem_singleton.mp hr, pyStrip_idem]
          exact hne
      · rw [if_neg hne]
        exact hacc
    · rw [if_neg hs] at h
      have : acc = res := by injection h
      exact this ▸ hacc

/-- Every chunk the character-fallback loop ever appends is a stripped
non-empty string. -/
theorem simpleLoop_chunksNonempty (cs co : Int) (text : PyStr) :
    ∀ (fuel : Nat) (start : Int) (acc res : List PyStr),
      (∀ c ∈ acc, pyStrip c ≠ []) →
      simpleLoop cs co text fuel start acc = some res →
      ∀ c ∈ res, pyStrip c ≠ [] := by
  intro fuel
  induction fuel with
  | zero =>
    intro start acc res _ h
    rw [simpleLoop_zero] at h
    exact absurd h (by simp)
  | succ n ih =>
    intro start acc res hacc h
    rw [simpleLoop_succ] at h
    by_cases hs : start < (text.length : Int)
    · rw [if_pos hs] at h
      refine ih _ _ res ?_ h
      by_cases hne : pyStrip (pySlice text start (start + cs)) ≠ []
      · rw [if_pos hne]
        intro c hc
        rcases List.mem_append.mp hc with hl | hr
        · exact hacc c hl
        · rw [List.mem_singleton.mp hr, pyStrip_idem]
          exact hne
      · rw [if_neg hne]
        exact hacc
    · rw [if_neg hs] at h
      have : acc = res := by injection h
      exact this ▸ hacc

/-! ### Claim C1 (amended) -/

/-- Claim C1, amended: for every input text and `0 ≤ O < S` (and any
tokenizer satisfying the decode/encode round trip), (a) whenever the chunker
returns, every returned chunk is non-empty after trimming; and (b) when the
text is non-empty after trimming and its token count is at most `S - O`, the
chunker terminates and returns exactly the singleton of the trimmed text.
(As stated the claim fails: whitespace-only non-empty input terminates with
zero chunks, see the counterexample.) -/
theorem claim1_chunksNonemptyAndSingleWindow (enc : Encoding) (S O : Int)
    (hO : 0 ≤ O) (hOS : O < S)
    (hrt : ∀ s, enc.decode (enc.encode s) = s) (hnil : enc.decode [] = [])
    (text : PyStr) :
    (∀ fuel res, splitTextIntoChunks enc S O text fuel = some res →
      ∀ c ∈ res, pyStrip c ≠ []) ∧
    (pyStrip text ≠ [] → ((enc.encode text).length : Int) ≤ S - O →
      splitTextIntoChunks enc S O text 2 = some [pyStrip text]) := by
  constructor
  · intro fuel res h
    exact splitLoop_chunksNonempty enc S O (enc.encode text) fuel 0 [] res
      (by intro c hc; exact absurd hc (List.not_mem_nil c)) h
  · intro ht hlen
    have htok : enc.encode text ≠ [] := by
      intro h0
      have htext : text = [] := by rw [← hrt text, h0, hnil]
      rw [htext] at ht
      exact ht rfl
    have hpos : (0 : Int) < ((enc.encode text).length : Int) := by
      have := List.length_pos.mpr htok
      omega
    have hce : computeEnd enc S (enc.encode text) 0 = 0 + S := by
      simp only [computeEnd]
      rw [if_neg (by omega)]
    unfold splitTextIntoChunks
    rw [splitLoop_succ, if_pos hpos, hce]
    have hslice : pySlice (enc.encode text) 0 (0 + S) = enc.encode text :=
      pySlice_all _ _ (by omega)
    rw [hslice, hrt, if_pos ht]
    by_cases hg : 0 + S - O ≥ 0 + S
    · rw [if_pos hg, splitLoop_succ, if_neg (by omega)]
      rfl
    · rw [if_neg hg, splitLoop_succ, if_neg (by omega)]
      rfl

/-- Witness for the amended C1 under the character tokenizer at `"hi"`,
`S = 5`, `O = 2`. -/
theorem claim1_witness :
    splitTextIntoChunks charEncoding 5 2 ('h' :: 'i' :: []) 2
      = some [('h' :: 'i' :: [])] :=
  (claim1_chunksNonemptyAndSingleWindow charEncoding 5 2 (by norm_num) (by norm_num)
    charEncoding_roundTrip rfl ('h' :: 'i' :: [])).2 (by decide) (by decide)

/-- With `0 ≤ overlap < size`, every iteration of the fallback loop advances
the start, so fuel one more than the text length suffices for the loop to
exit. -/
theorem simpleLoop_terminates (cs co : Int) (text : PyStr) (hco : 0 ≤ co) (hlt : co < cs) :
    ∀ (fuel : Nat) (start : Int) (acc : List PyStr),
      (text.length : Int) - start ≤ fuel →
      ∃ res, simpleLoop cs co text (fuel + 1) start acc = some res := by
  intro fuel
  induction fuel with
  | zero =>
    intro start acc hb
    rw [simpleLoop_succ, if_neg (by omega)]
    exact ⟨acc, rfl⟩
  | succ n ih =>
    intro start acc hb
    rw [simpleLoop_succ]
    by_cases hs : start < (text.length : Int)
    · rw [if_pos hs]
      apply ih
      by_cases hg : start + cs - co ≥ start + cs
      · rw [if_pos hg]
        omega
      · rw [if_neg hg]
        omega
    · rw [if_neg hs]
      exact ⟨acc, rfl⟩

/-- If the accumulator is non-empty, or a non-whitespace character remains at
or beyond the current start, the fallback loop's result is non-empty. -/
theorem simpleLoop_resNeNil (cs co : Int) (text : PyStr) (hco : 0 ≤ co) (hlt : co < cs) :
    ∀ (fuel : Nat) (start : Int) (acc res : List PyStr), 0 ≤ start →
      simpleLoop cs co text fuel start acc = some res →
      (acc ≠ [] ∨ ∃ c ∈ text.drop start.toNat, ¬ c.isWhitespace) →
      res ≠ [] := by
  intro fuel
  induction fuel with
  | zero =>
    intro start acc res _ h _
    rw [simpleLoop_zero] at h
    exact absurd h (by simp)
  | succ n ih =>
    intro start acc res h0 h hsrc
    rw [simpleLoop_succ] at h
    by_cases hs : start < (text.length : Int)
    · rw [if_pos hs] at h
      have h0' : 0 ≤ (if start + cs - co ≥ start + cs then start + cs else start + cs - co) := by
        by_cases hg : start + cs - co ≥ start + cs
        · rw [if_pos hg]
          omega
        · rw [if_neg hg]
          omega
      refine ih _ _ res h0' h ?_
      rcases hsrc with hacc | ⟨c, hc, hws⟩
      · left
        by_cases hne : pyStrip (pySlice text start (start + cs)) ≠ []
        · rw [if_pos hne]
          simp
        · rw [if_neg hne]
          exact hacc
      · have hdecomp := pySlice_decomp text start (start + cs) h0 (by omega)
        rw [hdecomp] at hc
        rcases List.mem_append.mp hc with hwin | hrest
        · left
          have hne : pyStrip (pySlice text start (start + cs)) ≠ [] := by
            intro hnil2
            exact hws ((pyStrip_eq_nil_iff _).mp hnil2 c hwin)
          rw [if_pos hne]
          simp
        · right
          refine ⟨c, ?_, hws⟩
          set st2 := (if start + cs - co ≥ start + cs then start + cs else start + cs - co)
            with hst2
          have hle : st2 ≤ start + cs := by
            rw [hst2]
            split <;> omega
          have hsplit2 : (start + cs).toNat = st2.toNat + ((start + cs).toNat - st2.toNat) := by
            omega
          rw [hsplit2, ← List.drop_drop] at hrest
          exact (List.drop_sublist _ _).subset hrest
    · rw [if_neg hs] at h
      have hres : acc = res := by injection h
      rcases hsrc with hacc | ⟨c, hc, _⟩
      · exact hres ▸ hacc
      · exfalso
        rw [List.drop_eq_nil_of_le (by omega)] at hc
        exact absurd hc (List.not_mem_nil c)

/-! ### Claim C6 (amended) -/

/-- Claim C6, amended: the character-based fallback uses a window of `S * 4`
characters and an overlap of `O * 4` characters with the same progress rules
(per the definition of `simpleTextSplit`), and for `0 ≤ O < S` it never
fails: for every input that is non-empty after trimming it terminates
(within `len(text) + 1` iterations) and returns at least one chunk, every
returned chunk being non-empty after trimming.  (As stated the claim fails
for whitespace-only non-empty input, see the counterexample.) -/
theorem claim6_fallbackReturnsChunk (S O : Int) (hO : 0 ≤ O) (hOS : O < S)
    (text : PyStr) (ht : pyStrip text ≠ []) :
    ∃ res, simpleTextSplit S O text (text.length + 1) = some res ∧ res ≠ [] ∧
      ∀ c ∈ res, pyStrip c ≠ [] := by
  have hco : (0 : Int) ≤ O * 4 := by omega
  have hlt : O * 4 < S * 4 := by omega
  obtain ⟨res, hres⟩ :=
    simpleLoop_terminates (S * 4) (O * 4) text hco hlt text.length 0 [] (by omega)
  refine ⟨res, hres, ?_, ?_⟩
  · refine simpleLoop_resNeNil (S * 4) (O * 4) text hco hlt (text.length + 1) 0 [] res
      (by omega) hres ?_
    right
    have hnotall : ¬ ∀ c ∈ text, c.isWhitespace :=
      fun hall => ht ((pyStrip_eq_nil_iff text).mpr hall)
    push_neg at hnotall
    obtain ⟨c, hc, hw⟩ := hnotall
    exact ⟨c, by simpa using hc, hw⟩
  · exact simpleLoop_chunksNonempty (S * 4) (O * 4) text (text.length + 1) 0 [] res
      (by simp) hres

/-- Witness for the amended C6 under concrete parameters and the text
`"hi"`. -/
theorem claim6_witness :
    ∃ res, simpleTextSplit 5 2 ('h' :: 'i' :: []) (('h' :: 'i' :: []).length + 1) = some res ∧
      res ≠ [] ∧ ∀ c ∈ res, pyStrip c ≠ [] :=
  claim6_fallbackReturnsChunk 5 2 (by norm_num) (by norm_num) ('h' :: 'i' :: []) (by decide)

/-! ### Claim C5 -/

/-- Claim C5: for every non-final window (`start + S < len(tokens)`), the end
position the code computes (split on `'.'`, more than one fragment → drop the
last fragment, re-join with `'.'`, terminate with `'.'`, re-encode) agrees
with the spec's description, whose second case is keyed on the window
containing no `'.'`: the two case conditions coincide because `split('.')`
yields more than one fragment exactly when the window contains a `'.'`. -/
theorem claim5_sentenceSnapMatchesSpec (enc : Encoding) (S : Int) (tokens : List Nat)
    (start : Int) (h : start + S < (tokens.length : Int)) :
    computeEnd enc S tokens start = specSnapEnd enc S tokens start := by
  simp only [computeEnd, specSnapEnd]
  rw [if_pos h]
  by_cases hd : '.' ∈ enc.decode (pySlice tokens start (start + S))
  · rw [if_pos ((one_lt_pySplitDot_length_iff _).mpr hd), if_pos hd]
  · rw [if_neg (fun hlen => hd ((one_lt_pySplitDot_length_iff _).mp hlen)), if_neg hd]

/-- Witness for C5: a window spanning the boundary of `"ab.cdefghij"` with
`S = 5` snaps to the sentence end, and code and spec formulations agree. -/
theorem claim5_witness :
    computeEnd charEncoding 5 (charEncoding.encode "ab.cdefghij".toList) 0
      = specSnapEnd charEncoding 5 (charEncoding.encode "ab.cdefghij".toList) 0 :=
  claim5_sentenceSnapMatchesSpec charEncoding 5
    (charEncoding.encode "ab.cdefghij".toList) 0 (by decide)

/-! ### Claim C3 -/

/-- Sorting with `pairLE` is invariant under permutation of the pairs. -/
theorem insertionSort_pairLE_perm_eq (m1 m2 : Metadata) (h : m1.Perm m2) :
    List.insertionSort pairLE m1 = List.insertionSort pairLE m2 :=
  List.eq_of_perm_of_sorted
    ((List.perm_insertionSort pairLE m1).trans (h.trans (List.perm_insertionSort pairLE m2).symm))
    (List.sorted_insertionSort pairLE m1) (List.sorted_insertionSort pairLE m2)

/-- Adding an entry to the collection preserves the ids already present. -/
theorem mem_storeIds_collectionAdd (s : Store) (e : String × String × Metadata)
    (x : String) (hx : x ∈ storeIds s) : x ∈ storeIds (collectionAdd s e) := by
  unfold collectionAdd
  by_cases hm : e.1 ∈ storeIds s
  · rw [if_pos hm]
    exact hx
  · rw [if_neg hm]
    unfold storeIds
    rw [List.map_append]
    exact List.mem_append.mpr (Or.inl hx)

/-- After adding an entry, its id is present in the collection. -/
theorem fst_mem_storeIds_collectionAdd (s : Store) (e : String × String × Metadata) :
    e.1 ∈ storeIds (collectionAdd s e) := by
  unfold collectionAdd
  by_cases hm : e.1 ∈ storeIds s
  · rw [if_pos hm]
    exact hm
  · rw [if_neg hm]
    unfold storeIds
    rw [List.map_append]
    exact List.mem_append.mpr (Or.inr (List.mem_singleton.mpr rfl))

/-- Adding an entry whose id is already present leaves the store unchanged. -/
theorem collectionAdd_of_mem (s : Store) (e : String × String × Metadata)
    (hm : e.1 ∈ storeIds s) : collectionAdd s e = s := by
  unfold collectionAdd
  rw [if_pos hm]

/-- Ids already present are preserved by the document-adding fold. -/
theorem foldl_add_preserves_mem (hash : String → String) (docs : List InputDoc) :
    ∀ (s : Store) (x : String), x ∈ storeIds s →
      x ∈ storeIds (docs.foldl
        (fun st d => collectionAdd st (generateDocId hash d.content d.metadata,
          d.content, d.metadata)) s) := by
  induction docs with
  | nil =>
    intro s x hx
    exact hx
  | cons d rest ih =>
    intro s x hx
    simp only [List.foldl_cons]
    exact ih _ x (mem_storeIds_collectionAdd s _ x hx)

/-- After the document-adding fold, every folded document's id is present. -/
theorem foldl_add_mem_ids (hash : String → String) (docs : List InputDoc) :
    ∀ (s : Store), ∀ d ∈ docs,
      generateDocId hash d.content d.metadata ∈ storeIds (docs.foldl
        (fun st d => collectionAdd st (generateDocId hash d.content d.metadata,
          d.content, d.metadata)) s) := by
  induction docs with
  | nil =>
    intro s d hd
    exact absurd hd (List.not_mem_nil d)
  | cons d0 rest ih =>
    intro s d hd
    simp only [List.foldl_cons]
    rcases List.mem_cons.mp hd with rfl | hdr
    · exact foldl_add_preserves_mem hash rest _ _ (fst_mem_storeIds_collectionAdd s _)
    · exact ih _ d hdr

/-- Folding documents whose ids are all already present is a no-op. -/
theorem foldl_add_noop (hash : String → String) (docs : List InputDoc) :
    ∀ (s : Store), (∀ d ∈ docs, generateDocId hash d.content d.metadata ∈ storeIds s) →
      docs.foldl (fun st d => collectionAdd st (generateDocId hash d.content d.metadata,
        d.content, d.metadata)) s = s := by
  induction docs with
  | nil =>
    intro s _
    rfl
  | cons d0 rest ih =>
    intro s hall
    simp only [List.foldl_cons]
    rw [collectionAdd_of_mem s _ (hall d0 (List.mem_cons_self d0 rest))]
    exact ih s (fun d hd => hall d (List.mem_cons_of_mem d0 hd))

/-- Claim C3: the document id is a hash of the content combined with a hash
of the metadata serialized with sorted keys, hence independent of metadata
pair order; and upserting the same batch a second time leaves the store's
count unchanged. -/
theorem claim3_docIdDeterministicAndIdempotent (hash : String → String) :
    (∀ (content : String) (m1 m2 : Metadata), m1.Perm m2 →
      generateDocId hash content m1 = generateDocId hash content m2) ∧
    (∀ (s : Store) (docs : List InputDoc),
      storeCount (addDocuments hash (addDocuments hash s docs).2 docs).2
        = storeCount (addDocuments hash s docs).2) := by
  constructor
  · intro content m1 m2 hperm
    unfold generateDocId serializeMetadata
    rw [insertionSort_pairLE_perm_eq m1 m2 hperm]
  · intro s docs
    cases docs with
    | nil => rfl
    | cons d rest =>
      show storeCount ((d :: rest).foldl _ ((d :: rest).foldl _ s)) = _
      rw [foldl_add_noop hash (d :: rest) ((d :: rest).foldl _ s)
        (foldl_add_mem_ids hash (d :: rest) s)]
      rfl

/-- Witness for C3: key order does not change the id, and re-adding the same
single-document batch leaves the count unchanged. -/
theorem claim3_witness :
    generateDocId (fun x => x) "c" [("a", "1"), ("b", "2")]
        = generateDocId (fun x => x) "c" [("b", "2"), ("a", "1")] ∧
      storeCount (addDocuments (fun x => x)
          (addDocuments (fun x => x) [] [⟨"c", [("a", "1")]⟩]).2 [⟨"c", [("a", "1")]⟩]).2
        = storeCount (addDocuments (fun x => x) [] [⟨"c", [("a", "1")]⟩]).2 :=
  ⟨(claim3_docIdDeterministicAndIdempotent (fun x => x)).1 "c" _ _ (by decide),
    (claim3_docIdDeterministicAndIdempotent (fun x => x)).2 [] [⟨"c", [("a", "1")]⟩]⟩

/-! ### Claim C7 -/

/-- Claim C7: for every query and requested count `k`, the adapter returns at
most `k` results, ordered by ascending distance, and the empty store yields
the empty result list rather than an error. -/
theorem claim7_queryOrderedBounded (dist : String → String → Int) (s : Store)
    (queryText : String) (k : Nat) :
    (searchDocuments dist s queryText k).length ≤ k ∧
    List.Sorted (fun a b : SearchResult => a.distance ≤ b.distance)
      (searchDocuments dist s queryText k) ∧
    searchDocuments dist [] queryText k = [] := by
  refine ⟨?_, ?_, by simp [searchDocuments, collectionQuery]⟩
  · unfold searchDocuments collectionQuery
    rw [List.length_map, List.length_take]
    omega
  · unfold searchDocuments collectionQuery
    exact List.Pairwise.map _ (fun a b hab => hab)
      (List.Pairwise.sublist (List.take_sublist k _) (List.sorted_insertionSort distLE _))
